import Mathlib

/-!
Verification of the chatdbt-ollama repository against its specification.

The repository's `src/` tree contains the Next.js frontend: the chat API
route (`frontend/app/api/chat/route.ts`) and the chat UI component
(`frontend/components/ChatInterface.tsx`).  These are embedded shallowly
below: JavaScript values flowing through the route are modelled by an
inductive `Json` type, JavaScript exceptions by an explicit error type,
and each handler becomes a total Lean function over those types.

The Python backend (document loader, chunker, vector index, retriever,
answer composer, index manager) is not part of `src/`; the definitions
for those components are modelled from the specification text and are
marked as such in their doc comments.
-/

namespace ChatDbt

/-- A JSON value, as produced by `await request.json()` /
`await response.json()` in the route code.  Numbers are modelled as
integers (only truthiness and equality of numbers matter to the code
under verification). -/
inductive Json where
  | null : Json
  | bool : Bool → Json
  | num : Int → Json
  | str : String → Json
  | arr : List Json → Json
  | obj : List (String × Json) → Json

/-- Property lookup on a JSON value, JS semantics for parsed JSON:
`v.k` is the field value for objects that carry the key, and
`undefined` (here `none`) for absent keys and for non-object receivers
(numbers, strings, booleans and arrays have no such own property).
Lookup on `null` is not covered here: it throws in JS and is modelled
separately by `jsAccess`. -/
def jsGet : Json → String → Option Json
  | Json.obj fields, k => (fields.find? (fun p => p.1 == k)).map (fun p => p.2)
  | _, _ => none

/-- JavaScript truthiness of a JSON value: `null`, `false`, `0` and the
empty string are falsy; arrays and objects (even empty ones) are truthy. -/
def jsTruthy : Json → Bool
  | Json.null => false
  | Json.bool b => b
  | Json.num n => n != 0
  | Json.str s => s != ""
  | Json.arr _ => true
  | Json.obj _ => true

/-- Truthiness of a possibly-`undefined` value (`undefined` is falsy). -/
def jsTruthyO : Option Json → Bool
  | none => false
  | some v => jsTruthy v

/-- `typeof v === 'string'` on a possibly-`undefined` value. -/
def jsIsStringO : Option Json → Bool
  | some (Json.str _) => true
  | _ => false

/-- A thrown JavaScript exception, as observed by the route's `catch`
block: whether it is a `TypeError`, and its `message` string.  Every
exception reaching the handler is an `Error` carrying a message, so the
`error instanceof Error ? error.message : 'Unknown error'` branch always
takes the message. -/
structure JsThrow where
  isTypeError : Bool
  msg : String

/-- Boolean list-prefix test (used to model `String.includes`). -/
def startsWithChars : List Char → List Char → Bool
  | [], _ => true
  | _ :: _, [] => false
  | a :: as, b :: bs => a == b && startsWithChars as bs

/-- Boolean substring test on character lists. -/
def containsChars (needle : List Char) : List Char → Bool
  | [] => startsWithChars needle []
  | c :: rest => startsWithChars needle (c :: rest) || containsChars needle rest

/-- `haystack.includes(needle)` for strings. -/
def strContains (haystack needle : String) : Bool :=
  containsChars needle.toList haystack.toList

/-- Property access `v.k` including the JS throwing behaviour:
reading a property of `null` throws a `TypeError` (whose message does
not mention `fetch`); every other receiver yields `jsGet`. -/
def jsAccess (v : Json) (k : String) : Except JsThrow (Option Json) :=
  match v with
  | Json.null => Except.error ⟨true, "Cannot read properties of null"⟩
  | _ => Except.ok (jsGet v k)

/-- Builds a JSON object from possibly-`undefined` field values, the way
`NextResponse.json` serialises an object literal: fields whose value is
`undefined` are omitted. -/
def mkObjO (fields : List (String × Option Json)) : Json :=
  Json.obj (fields.filterMap (fun p => p.2.map (fun v => (p.1, v))))

/-- The backend base URL used by the route (`process.env.BACKEND_URL ||
'http://localhost:8000'`, modelled with the default). -/
def backendUrl : String := "http://localhost:8000"

/-- Outcome of the route's `fetch` call to the backend `/chat` endpoint:
an OK response whose body parse may succeed or throw, a non-OK response
with its status and body parse result, or a `fetch` call that itself
threw (`isTypeError` records `instanceof TypeError`; a body-parse
failure is a `SyntaxError`, hence carried as a plain message). -/
inductive BackendOutcome where
  | okResp (jsonResult : Except String Json)
  | httpErr (status : Nat) (jsonResult : Except String Json)
  | threw (isTypeError : Bool) (msg : String)

/-- An HTTP response produced by the route handler: status code plus
JSON body. -/
structure RouteResponse where
  status : Nat
  body : Json

/-- The `catch` block of the chat route's `POST` handler
(`route.ts` lines 44-65): a `TypeError` whose message mentions `fetch`
yields 503, every other exception yields 500. -/
def catchHandler (e : JsThrow) : RouteResponse :=
  if e.isTypeError && strContains e.msg "fetch" then
    ⟨503, Json.obj
      [("error", Json.str "Cannot connect to backend server. Please ensure the backend is running."),
       ("details", Json.str ("Check that the backend server is started and accessible at " ++ backendUrl))]⟩
  else
    ⟨500, Json.obj
      [("error", Json.str "Internal server error"),
       ("details", Json.str e.msg)]⟩

/-- The body the route forwards to the backend
(`route.ts` line 23: `JSON.stringify({ message: body.message })`):
an object holding only the `message` field. -/
def forwardedChatBody (body : Json) : Json :=
  mkObjO [("message", jsGet body "message")]

/-- The request body the UI sends to `/api/chat`
(`ChatInterface.tsx` line 72: `JSON.stringify({ message: input.trim() })`). -/
def uiChatBody (input : String) : Json :=
  Json.obj [("message", Json.str input.trim)]

/-- The chat route's `POST` handler (`route.ts` lines 5-66), as a total
function from the parse result of `request.json()` and the backend call
outcome to the HTTP response, paired with whether the `fetch` to the
backend was reached. -/
def postChat (bodyResult : Except String Json) (o : BackendOutcome) :
    RouteResponse × Bool :=
  match bodyResult with
  | Except.error m => (catchHandler ⟨false, m⟩, false)
  | Except.ok body =>
    match jsAccess body "message" with
    | Except.error e => (catchHandler e, false)
    | Except.ok msgVal =>
      if !(jsTruthyO msgVal && jsIsStringO msgVal) then
        (⟨400, Json.obj [("error", Json.str "Message is required and must be a string")]⟩,
         false)
      else
        match o with
        | BackendOutcome.threw te m => (catchHandler ⟨te, m⟩, true)
        | BackendOutcome.httpErr st jr =>
          let errorData : Json :=
            match jr with
            | Except.ok j => j
            | Except.error _ => Json.obj []
          match jsAccess errorData "detail" with
          | Except.error e => (catchHandler e, true)
          | Except.ok detailVal =>
            let errVal : Json :=
              if jsTruthyO detailVal then detailVal.getD Json.null
              else Json.str ("Backend error: " ++ toString st)
            (⟨st, Json.obj [("error", errVal), ("status", Json.num (Int.ofNat st))]⟩, true)
        | BackendOutcome.okResp jr =>
          match jr with
          | Except.error m => (catchHandler ⟨false, m⟩, true)
          | Except.ok data =>
            match jsAccess data "response", jsAccess data "sources" with
            | Except.error e, _ => (catchHandler e, true)
            | _, Except.error e => (catchHandler e, true)
            | Except.ok respVal, Except.ok srcVal =>
              let sourcesVal : Json :=
                if jsTruthyO srcVal then srcVal.getD Json.null else Json.arr []
              (⟨200, mkObjO [("response", respVal), ("sources", some sourcesVal)]⟩, true)

/-- A chat-route request body carrying a valid message: the `message`
field is a non-empty string (the condition under which the route's
validation passes). -/
def validChatBody (body : Json) : Prop :=
  ∃ s : String, s ≠ "" ∧ jsGet body "message" = some (Json.str s)

/-- JavaScript `"str".split(sep)` for a single-character separator,
over character lists.  The result is never empty; splitting the empty
string yields `[[]]`, and a trailing separator yields a trailing empty
segment, exactly as in JS. -/
def jsSplitChar (sep : Char) : List Char → List (List Char)
  | [] => [[]]
  | c :: rest =>
    if c == sep then [] :: jsSplitChar sep rest
    else
      match jsSplitChar sep rest with
      | [] => [[c]]
      | h :: t => (c :: h) :: t

/-- `getFileBasename` from `ChatInterface.tsx` lines 147-149:
`filepath.split('/').pop() || filepath`.  `pop` on the never-empty
split result is its last element; the `||` falls back to the whole
path when that element is the empty string. -/
def getFileBasename (fp : List Char) : List Char :=
  match (jsSplitChar '/' fp).getLast? with
  | none => fp
  | some last => if last.isEmpty then fp else last

/-- The maximal suffix of `fp` containing no slash: the segment after
the last `/` (the whole string when there is no `/`).  Used as the
independent description against which `getFileBasename` is checked. -/
def afterLastSlash (fp : List Char) : List Char :=
  (fp.reverse.takeWhile (fun c => c != '/')).reverse

/-- Modelled from the spec: `SourceDocument` (§3); the Document Loader
producing it is not part of `src/`.  `raw_text` is a character list and
`last_modified` an abstract timestamp. -/
structure SourceDocument where
  path : String
  raw_text : List Char
  last_modified : Nat

/-- Modelled from the spec: `Chunk` (§3); the backend owning it is not
part of `src/`.  `id` is the deterministic string identifier,
`embedding` a vector modelled over `ℚ` (exact stand-in for floats). -/
structure Chunk where
  id : String
  source_path : String
  text : String
  offset : Nat
  embedding : List ℚ

/-- Modelled from the spec: `RetrievalResult` (§3): a retrieved chunk
with its similarity score. -/
structure RetrievalResult where
  chunk : Chunk
  score : ℚ

/-- Removes duplicates from a list keeping the first occurrence of each
element, preserving order. -/
def dedupFirstSeen : List String → List String
  | [] => []
  | x :: xs => x :: dedupFirstSeen (xs.filter (fun y => y != x))
termination_by l => l.length
decreasing_by
  simp only [List.length_cons]
  exact Nat.lt_succ_of_le (List.length_filter_le _ _)

/-- Modelled from the spec: the Answer Composer's `sources` output
(§4.7, not part of `src/`): "the ordered, deduplicated list of
`source_path` values from `retrieved`, preserving first-seen order". -/
def sourcesOf (retrieved : List RetrievalResult) : List String :=
  dedupFirstSeen (retrieved.map (fun r => r.chunk.source_path))

/-- Modelled from the spec: the Chunker's failure (§4.2, not part of
`src/`): `overlap` outside `0 ≤ overlap < chunk_size` fails with
`InvalidConfigurationError`. -/
inductive ChunkerFailure where
  | invalidConfigurationError

/-- Modelled from the spec: the Chunker's sliding window (§4.2, not
part of `src/`): each step emits the window `(offset, text-slice)` of
at most `cs` characters and advances by `cs - ov`; the final chunk may
be shorter but is never dropped, and a document no longer than `cs`
yields exactly one chunk.  The proof argument `h` records the already
validated configuration `ov < cs`. -/
def chunkCore (cs ov : Nat) (h : ov < cs) (off : Nat) (t : List Char) :
    List (Nat × List Char) :=
  if t.length ≤ cs then [(off, t)]
  else (off, t.take cs) :: chunkCore cs ov h (off + (cs - ov)) (t.drop (cs - ov))
termination_by t.length
decreasing_by
  simp only [List.length_drop]
  omega

/-- Modelled from the spec: `chunk(document, chunk_size, overlap)`
(§4.2, not part of `src/`); embeddings are unset at this stage, so each
produced chunk is its `(offset, text)` pair. -/
def chunkDocument (doc : SourceDocument) (chunk_size overlap : Nat) :
    Except ChunkerFailure (List (Nat × List Char)) :=
  if h : overlap < chunk_size then
    Except.ok (chunkCore chunk_size overlap h 0 doc.raw_text)
  else Except.error ChunkerFailure.invalidConfigurationError

/-- Modelled from the spec: the `health()` service operation result
shape (§6, not part of `src/`): an `indexed` boolean and a
`chunk_count` integer. -/
structure HealthResult where
  indexed : Bool
  chunk_count : Nat

/-- Modelled from the spec: `health()` (§6, not part of `src/`) over
the current index contents: `indexed` reports a non-empty index,
`chunk_count` the number of indexed chunks. -/
def health (chunks : List Chunk) : HealthResult :=
  ⟨!chunks.isEmpty, chunks.length⟩

/-- Outcome of the UI's `fetch('/api/health')` call: the fetch threw, a
non-OK response arrived, or an OK response arrived whose body parse
succeeded or threw. -/
inductive HealthFetch where
  | threw
  | respNotOk (status : Nat)
  | respOk (jsonResult : Except String Json)

/-- `checkConnection` from `ChatInterface.tsx` lines 38-48, as the
update it applies to the `isConnected` state: a throw sets it to
`false`; a non-OK response leaves it unchanged (the code only assigns
inside `if (response.ok)`); an OK response sets it to
`data.status === 'healthy'`. -/
def checkConnection (prev : Bool) (o : HealthFetch) : Bool :=
  match o with
  | HealthFetch.threw => false
  | HealthFetch.respNotOk _ => prev
  | HealthFetch.respOk (Except.error _) => false
  | HealthFetch.respOk (Except.ok data) =>
    match jsGet data "status" with
    | some (Json.str s) => s == "healthy"
    | _ => false

/-- Modelled from the spec: the `refresh_index()` service operation
result shape (§6, not part of `src/`). -/
structure RefreshResult where
  status : String
  chunks_added : Nat
  chunks_removed : Nat

/-- Modelled from the spec: `refresh_index()` (§6 with §4.5, not part
of `src/`): starting from the currently indexed chunk-id set `old` and
the freshly rechunked id set `new`, unchanged ids are kept, ids only in
`new` are embedded and added, ids no longer present are removed; the
reported counts are the sizes of the two set differences. -/
def refresh_index (old new : Finset String) : Finset String × RefreshResult :=
  ((old ∩ new) ∪ (new \ old),
   ⟨"success", (new \ old).card, (old \ new).card⟩)

/-- Dot product of two rational vectors. -/
def dot (a b : List ℚ) : ℚ := (List.zipWith (· * ·) a b).sum

/-- Squared Euclidean norm of a rational vector. -/
def normSq (a : List ℚ) : ℚ := dot a a

/-- Exact comparison `sim_a ≥ sim_b` of two cosine similarities sharing
the same query vector, given the dot products `da`, `db` with the query
and the squared norms `na`, `nb`: since the query norm cancels and the
square roots are monotone, the comparison reduces to sign analysis plus
a squared inequality over `ℚ`. -/
def simGE (da na db nb : ℚ) : Bool :=
  if 0 ≤ da then
    if 0 ≤ db then decide (db ^ 2 * na ≤ da ^ 2 * nb) else true
  else
    if 0 ≤ db then false else decide (da ^ 2 * nb ≤ db ^ 2 * na)

/-- Modelled from the spec: the Vector Index ranking order (§4.4, not
part of `src/`): `a` precedes `b` when `a`'s cosine similarity to the
query is strictly greater, or the similarities are equal and
`a.id ≤ b.id` (ties broken by chunk id ascending). -/
def chunkLE (q : List ℚ) (a b : Chunk) : Bool :=
  let da := dot a.embedding q
  let db := dot b.embedding q
  let na := normSq a.embedding
  let nb := normSq b.embedding
  if simGE da na db nb then
    if simGE db nb da na then decide (a.id ≤ b.id) else true
  else false

/-- Insertion into a list sorted by the boolean comparator `le`. -/
def insertLe {α : Type} (le : α → α → Bool) (a : α) : List α → List α
  | [] => [a]
  | b :: l => if le a b then a :: b :: l else b :: insertLe le a l

/-- Insertion sort by the boolean comparator `le` (the reference linear
ranking algorithm of §4.4). -/
def sortLe {α : Type} (le : α → α → Bool) : List α → List α
  | [] => []
  | a :: l => insertLe le a (sortLe le l)

/-- Modelled from the spec: the Vector Index search failure (§4.4, not
part of `src/`): `k ≤ 0` fails with `InvalidArgumentError`. -/
inductive SearchFailure where
  | invalidArgumentError

/-- Modelled from the spec: `search(query_vector, k)` (§4.4, not part
of `src/`): rejects `k ≤ 0`, otherwise ranks all stored chunks by
descending cosine similarity (ties by ascending chunk id) and returns
the first `k`. -/
def search (q : List ℚ) (k : Int) (chunks : List Chunk) :
    Except SearchFailure (List Chunk) :=
  if k ≤ 0 then Except.error SearchFailure.invalidArgumentError
  else Except.ok ((sortLe (chunkLE q) chunks).take k.toNat)

/-- The ranking order of §4.4 stated over the real-valued cosine
similarity `dot a q / (‖a‖ · ‖q‖)` itself: strictly greater similarity,
or equal similarity with ascending chunk id. -/
def DescendingByCosine (q : List ℚ) (a b : Chunk) : Prop :=
  ((dot b.embedding q : ℚ) : ℝ) /
      (Real.sqrt ((normSq b.embedding : ℚ) : ℝ) * Real.sqrt ((normSq q : ℚ) : ℝ))
    < ((dot a.embedding q : ℚ) : ℝ) /
      (Real.sqrt ((normSq a.embedding : ℚ) : ℝ) * Real.sqrt ((normSq q : ℚ) : ℝ))
  ∨ (((dot a.embedding q : ℚ) : ℝ) /
        (Real.sqrt ((normSq a.embedding : ℚ) : ℝ) * Real.sqrt ((normSq q : ℚ) : ℝ))
      = ((dot b.embedding q : ℚ) : ℝ) /
        (Real.sqrt ((normSq b.embedding : ℚ) : ℝ) * Real.sqrt ((normSq q : ℚ) : ℝ))
     ∧ a.id ≤ b.id)

/-! ## Helper lemmas -/

theorem dedupFirstSeen_sublist (l : List String) : List.Sublist (dedupFirstSeen l) l := by
  induction l using dedupFirstSeen.induct with
  | case1 => simp [dedupFirstSeen]
  | case2 x xs ih =>
    rw [dedupFirstSeen]
    exact List.Sublist.cons₂ x (ih.trans (List.filter_sublist xs))

theorem mem_dedupFirstSeen (l : List String) (a : String) :
    a ∈ dedupFirstSeen l ↔ a ∈ l := by
  induction l using dedupFirstSeen.induct with
  | case1 => simp [dedupFirstSeen]
  | case2 x xs ih =>
    rw [dedupFirstSeen]
    simp only [List.mem_cons, ih, List.mem_filter]
    constructor
    · rintro (rfl | ⟨h, _⟩)
      · exact Or.inl rfl
      · exact Or.inr h
    · rintro (rfl | h)
      · exact Or.inl rfl
      · by_cases hx : a = x
        · exact Or.inl hx
        · exact Or.inr ⟨h, by simpa using hx⟩

theorem nodup_dedupFirstSeen (l : List String) : (dedupFirstSeen l).Nodup := by
  induction l using dedupFirstSeen.induct with
  | case1 => simp [dedupFirstSeen]
  | case2 x xs ih =>
    rw [dedupFirstSeen]
    refine List.Nodup.cons (fun hmem => ?_) ih
    rw [mem_dedupFirstSeen, List.mem_filter] at hmem
    simpa using hmem.2

theorem takeWhile_append_last_false (p : Char → Bool) (y : Char) (hy : p y = false)
    (xs : List Char) : (xs ++ [y]).takeWhile p = xs.takeWhile p := by
  induction xs with
  | nil => simp [List.takeWhile_cons, hy]
  | cons x xs ih =>
    by_cases hx : p x
    · simp [List.takeWhile_cons, hx, ih]
    · simp [List.takeWhile_cons, hx]

theorem takeWhile_append_of_bad (p : Char → Bool) (xs ys : List Char)
    (hx : ∃ x ∈ xs, p x = false) : (xs ++ ys).takeWhile p = xs.takeWhile p := by
  induction xs with
  | nil => simp at hx
  | cons x xs ih =>
    by_cases hpx : p x
    · obtain ⟨z, hz, hzp⟩ := hx
      rcases List.mem_cons.mp hz with rfl | hz'
      · rw [hpx] at hzp; cases hzp
      · simp [List.takeWhile_cons, hpx, ih ⟨z, hz', hzp⟩]
    · simp [List.takeWhile_cons, hpx]

theorem takeWhile_eq_self_of_all (p : Char → Bool) (l : List Char)
    (h : ∀ c ∈ l, p c = true) : l.takeWhile p = l := by
  induction l with
  | nil => rfl
  | cons c l ih =>
    rw [List.takeWhile_cons, h c (List.mem_cons_self c l),
      ih (fun x hx => h x (List.mem_cons_of_mem c hx))]
    simp

theorem afterLastSlash_of_not_mem (fp : List Char) (h : '/' ∉ fp) :
    afterLastSlash fp = fp := by
  rw [afterLastSlash, takeWhile_eq_self_of_all, List.reverse_reverse]
  intro c hc
  have hmem : c ∈ fp := List.mem_reverse.mp hc
  have hne : c ≠ '/' := fun hcs => h (hcs ▸ hmem)
  simpa using hne

theorem jsSplitChar_getLast (sep : Char) (l : List Char) :
    (jsSplitChar sep l).getLast? = some ((l.reverse.takeWhile (fun c => c != sep)).reverse)
    ∧ ((jsSplitChar sep l).length = 1 ↔ sep ∉ l) := by
  induction l with
  | nil => simp [jsSplitChar]
  | cons c rest ih =>
    by_cases hc : c = sep
    · subst hc
      rw [jsSplitChar, if_pos (by simp)]
      obtain ⟨ih1, ih2⟩ := ih
      rcases hr : jsSplitChar c rest with _ | ⟨h1, t1⟩
      · rw [hr] at ih1; simp at ih1
      · rw [hr] at ih1
        constructor
        · rw [List.getLast?_cons_cons, ih1, List.reverse_cons,
            takeWhile_append_last_false _ _ (by simp)]
        · simp
    · rw [jsSplitChar, if_neg (by simpa using hc)]
      obtain ⟨ih1, ih2⟩ := ih
      rcases hr : jsSplitChar sep rest with _ | ⟨h1, t1⟩
      · rw [hr] at ih1; simp at ih1
      · rw [hr] at ih1 ih2
        rcases t1 with _ | ⟨t2, ts⟩
        · -- the split of `rest` is a singleton: no separator occurs in `rest`
          have hrest : sep ∉ rest := by simpa using ih2
          have hall : ∀ x ∈ rest.reverse ++ [c], (x != sep) = true := by
            intro x hx
            rcases List.mem_append.mp hx with hx' | hx'
            · have hmem : x ∈ rest := List.mem_reverse.mp hx'
              have hne : x ≠ sep := fun hxs => hrest (hxs ▸ hmem)
              simpa using hne
            · simp only [List.mem_singleton] at hx'
              subst hx'
              simpa using hc
          have hh1 : h1 = rest := by
            have h' := ih1
            simp only [List.getLast?_singleton, Option.some.injEq] at h'
            rw [h', takeWhile_eq_self_of_all _ _ (fun x hx => hall x
              (List.mem_append.mpr (Or.inl hx))), List.reverse_reverse]
          constructor
          · rw [List.getLast?_singleton, List.reverse_cons,
              takeWhile_eq_self_of_all _ _ hall, List.reverse_append,
              List.reverse_reverse, hh1]
            rfl
          · simp only [List.length_singleton, List.mem_cons]
            constructor
            · rintro - (h | h)
              · exact hc h.symm
              · exact hrest h
            · intro _
              trivial
        · -- the split of `rest` has at least two segments: `sep` occurs in `rest`
          have hrest : sep ∈ rest := by
            by_contra hmem
            have := ih2.mpr hmem
            simp at this
          constructor
          · rw [List.getLast?_cons_cons] at ih1
            rw [List.getLast?_cons_cons, ih1, List.reverse_cons, takeWhile_append_of_bad]
            exact ⟨sep, List.mem_reverse.mpr hrest, by simp⟩
          · constructor
            · intro h; simp at h
            · intro h
              exact absurd (List.mem_cons_of_mem c hrest) h

theorem jsAccess_of_ne_null (v : Json) (k : String) (h : v ≠ Json.null) :
    jsAccess v k = Except.ok (jsGet v k) := by
  cases v
  · exact absurd rfl h
  all_goals rfl

theorem catchHandler_error_field (e : JsThrow) :
    ∃ v, jsGet (catchHandler e).body "error" = some v := by
  rw [catchHandler]
  split
  · exact ⟨_, rfl⟩
  · exact ⟨_, rfl⟩

theorem catchHandler_status (e : JsThrow) :
    (catchHandler e).status =
      if (e.isTypeError && strContains e.msg "fetch") = true then 503 else 500 := by
  rw [catchHandler]
  split
  · simp_all
  · simp_all

/-- For a request body whose `message` is a non-empty string, the
route's validation passes and the handler proceeds to the backend-call
stage. -/
theorem postChat_valid (body : Json) (hb : validChatBody body) (o : BackendOutcome) :
    postChat (Except.ok body) o =
      (match o with
       | BackendOutcome.threw te m => (catchHandler ⟨te, m⟩, true)
       | BackendOutcome.httpErr st jr =>
         let errorData : Json :=
           match jr with
           | Except.ok j => j
           | Except.error _ => Json.obj []
         match jsAccess errorData "detail" with
         | Except.error e => (catchHandler e, true)
         | Except.ok detailVal =>
           let errVal : Json :=
             if jsTruthyO detailVal then detailVal.getD Json.null
             else Json.str ("Backend error: " ++ toString st)
           (⟨st, Json.obj [("error", errVal), ("status", Json.num (Int.ofNat st))]⟩, true)
       | BackendOutcome.okResp jr =>
         match jr with
         | Except.error m => (catchHandler ⟨false, m⟩, true)
         | Except.ok data =>
           match jsAccess data "response", jsAccess data "sources" with
           | Except.error e, _ => (catchHandler e, true)
           | _, Except.error e => (catchHandler e, true)
           | Except.ok respVal, Except.ok srcVal =>
             let sourcesVal : Json :=
               if jsTruthyO srcVal then srcVal.getD Json.null else Json.arr []
             (⟨200, mkObjO [("response", respVal), ("sources", some sourcesVal)]⟩, true)) := by
  obtain ⟨s, hs, hm⟩ := hb
  have hnn : body ≠ Json.null := by
    intro h
    subst h
    simp [jsGet] at hm
  have hacc := jsAccess_of_ne_null body "message" hnn
  have hstr : (s != "") = true := by simpa using hs
  simp only [postChat, hacc, hm, jsTruthyO, jsTruthy, jsIsStringO, hstr,
    Bool.and_true, Bool.not_true, Bool.true_and, Bool.and_self]
  simp

/-! ## Claim theorems -/

/-- C10: for every file path, `getFileBasename` returns the segment
after the last `/` (the maximal slash-free suffix); when that segment
is empty — the path ends in `/` or is empty — it returns the whole
path, and in particular a path containing no `/` is returned unchanged. -/
theorem getFileBasename_after_last_slash (fp : List Char) :
    getFileBasename fp = (if afterLastSlash fp = [] then fp else afterLastSlash fp)
    ∧ (afterLastSlash fp = [] ↔ fp.getLast? = some '/' ∨ fp = [])
    ∧ ('/' ∉ fp → getFileBasename fp = fp) := by
  have hsplit := (jsSplitChar_getLast '/' fp).1
  have hbase : getFileBasename fp =
      (if afterLastSlash fp = [] then fp else afterLastSlash fp) := by
    rw [getFileBasename, hsplit]
    rcases he : afterLastSlash fp with _ | ⟨a, l⟩
    · rw [afterLastSlash] at he
      rw [he]
      simp
    · rw [afterLastSlash] at he
      rw [he]
      simp
  have hempty : afterLastSlash fp = [] ↔ fp.getLast? = some '/' ∨ fp = [] := by
    rw [afterLastSlash, List.reverse_eq_nil_iff, ← List.head?_reverse]
    rcases hr : fp.reverse with _ | ⟨a, l⟩
    · simp only [List.takeWhile_nil]
      have : fp = [] := by simpa using congrArg List.reverse hr
      simp [this]
    · have hfp : fp ≠ [] := by
        intro h
        rw [h] at hr
        simp at hr
      simp only [List.takeWhile_cons, List.head?_cons]
      by_cases ha : a = '/'
      · subst ha
        simp [hfp]
      · have : (a != '/') = true := by simpa using ha
        rw [this]
        simp only [if_true]
        constructor
        · intro h
          simp at h
        · rintro (h | h)
          · exact absurd (Option.some.inj h) ha
          · exact absurd h hfp
  refine ⟨hbase, hempty, fun hnot => ?_⟩
  rw [hbase, afterLastSlash_of_not_mem fp hnot]
  split <;> simp_all

/-- C10 witness: a path with no slash is returned unchanged. -/
theorem getFileBasename_after_last_slash_witness :
    getFileBasename (String.toList "README") = String.toList "README" :=
  (getFileBasename_after_last_slash (String.toList "README")).2.2 (by decide)

/-- C5: the `sources` list produced by the Answer Composer is the
deduplicated list of `source_path` values of the retrieved chunks: it
has no duplicates, it is a sublist of the retrieved `source_path`
sequence (so the relative order of first occurrences — descending
retrieval score — is preserved), and it contains exactly the paths that
occur among the retrieved chunks. -/
theorem sourcesOf_dedup_first_seen (retrieved : List RetrievalResult) :
    (sourcesOf retrieved).Nodup
    ∧ List.Sublist (sourcesOf retrieved) (retrieved.map (fun r => r.chunk.source_path))
    ∧ (∀ p : String, p ∈ sourcesOf retrieved ↔
        p ∈ retrieved.map (fun r => r.chunk.source_path)) :=
  ⟨nodup_dedupFirstSeen _, dedupFirstSeen_sublist _,
   fun p => mem_dedupFirstSeen _ p⟩

/-- C4: a completed `refresh_index` reports a status together with the
counts of chunks actually added and removed: the resulting index is
exactly the fresh chunk-id set, `chunks_added` is the number of ids
present after but not before, and `chunks_removed` the number of ids
present before but not after. -/
theorem refresh_index_reports_added_removed (old new : Finset String) :
    (refresh_index old new).1 = new
    ∧ (refresh_index old new).2.chunks_added = ((refresh_index old new).1 \ old).card
    ∧ (refresh_index old new).2.chunks_removed = (old \ (refresh_index old new).1).card
    ∧ (refresh_index old new).2.status = "success" := by
  have hidx : (old ∩ new) ∪ (new \ old) = new := by
    ext a
    simp only [Finset.mem_union, Finset.mem_inter, Finset.mem_sdiff]
    tauto
  refine ⟨hidx, ?_, ?_, rfl⟩
  · show (new \ old).card = (((old ∩ new) ∪ (new \ old)) \ old).card
    rw [hidx]
  · show (old \ new).card = (old \ ((old ∩ new) ∪ (new \ old))).card
    rw [hidx]

/-- C3: the `health()` result carries an `indexed` boolean (true exactly
when the index is non-empty) and a `chunk_count` integer equal to the
number of indexed chunks; and the UI's `checkConnection` computes the
connection state from the health fetch result alone — it reports
connected exactly when the health response was OK with
`status = "healthy"`, or when the response was non-OK and the previous
state was already connected (the code only assigns inside
`if (response.ok)`). -/
theorem health_shape_and_connection_check (chunks : List Chunk) (prev : Bool)
    (o : HealthFetch) :
    ((health chunks).indexed = true ↔ chunks ≠ [])
    ∧ (health chunks).chunk_count = chunks.length
    ∧ (checkConnection prev o = true ↔
        ((∃ d, o = HealthFetch.respOk (Except.ok d)
            ∧ jsGet d "status" = some (Json.str "healthy"))
         ∨ (prev = true ∧ ∃ st, o = HealthFetch.respNotOk st))) := by
  refine ⟨by cases chunks <;> simp [health], rfl, ?_⟩
  cases o with
  | threw => simp [checkConnection]
  | respNotOk st => cases prev <;> simp [checkConnection]
  | respOk jr =>
    cases jr with
    | error m => simp [checkConnection]
    | ok d =>
      rw [checkConnection]
      rcases hs : jsGet d "status" with _ | v
      · simp [hs]
      · cases v <;> simp [hs]

/-- C2 (divergence witness): the repository forwards only the message.
On a request body carrying both a `message` and a non-empty `history`,
the body the route forwards to the backend (`route.ts` line 23) is
exactly `{message}` with no `history` field, and the body the UI sends
to the route (`ChatInterface.tsx` line 72) likewise never contains a
`history` field — contradicting the claim that the accumulated
conversation history is included in the forwarded chat request. -/
theorem chat_request_drops_history :
    forwardedChatBody (Json.obj
      [("message", Json.str "and the second question?"),
       ("history", Json.arr
         [Json.obj [("role", Json.str "user"), ("content", Json.str "first question")],
          Json.obj [("role", Json.str "assistant"), ("content", Json.str "first answer")]])])
      = Json.obj [("message", Json.str "and the second question?")]
    ∧ jsGet (forwardedChatBody (Json.obj
        [("message", Json.str "and the second question?"),
         ("history", Json.arr
           [Json.obj [("role", Json.str "user"), ("content", Json.str "first question")],
            Json.obj [("role", Json.str "assistant"), ("content", Json.str "first answer")]])]))
        "history" = none
    ∧ jsGet (uiChatBody "and the second question?") "history" = none :=
  ⟨rfl, rfl, rfl⟩

/-- C8 (amended): for every POST whose parsed body is non-null and does
not carry a non-empty string `message` (no `message` field, empty
string, or a non-string value), the route returns 400 with the fixed
error message and never reaches the backend fetch, whatever the backend
would have answered. -/
theorem invalid_message_rejected_without_backend_call (body : Json) (o : BackendOutcome)
    (h1 : body ≠ Json.null)
    (h2 : ∀ s : String, jsGet body "message" = some (Json.str s) → s = "") :
    postChat (Except.ok body) o =
      (⟨400, Json.obj [("error", Json.str "Message is required and must be a string")]⟩,
       false) := by
  have hacc := jsAccess_of_ne_null body "message" h1
  have hcond : (jsTruthyO (jsGet body "message") && jsIsStringO (jsGet body "message")) = false := by
    rcases hm : jsGet body "message" with _ | v
    · rfl
    · cases v with
      | str s =>
        have hs := h2 s hm
        subst hs
        rfl
      | null => rfl
      | bool b => simp [jsTruthyO, jsTruthy, jsIsStringO]
      | num n => simp [jsTruthyO, jsTruthy, jsIsStringO]
      | arr l => simp [jsTruthyO, jsTruthy, jsIsStringO]
      | obj l => simp [jsTruthyO, jsTruthy, jsIsStringO]
  simp only [postChat, hacc, hcond]
  rfl

/-- C8 witness: a body whose `message` is the empty string is rejected
with 400 and the backend is not called. -/
theorem invalid_message_rejected_without_backend_call_witness :
    postChat (Except.ok (Json.obj [("message", Json.str "")]))
        (BackendOutcome.okResp (Except.ok Json.null)) =
      (⟨400, Json.obj [("error", Json.str "Message is required and must be a string")]⟩,
       false) :=
  invalid_message_rejected_without_backend_call _ _
    (fun h => Json.noConfusion h)
    (fun s h => by simp [jsGet] at h; exact h.symm)

/-- C8 counterexample to the claim as stated: a JSON `null` body has no
`message` field, yet the route answers 500 (the `body.message` access
throws and lands in the generic catch), not 400.  The backend is still
not called. -/
theorem null_body_yields_500_not_400 :
    postChat (Except.ok Json.null) (BackendOutcome.okResp (Except.ok (Json.obj []))) =
      (⟨500, Json.obj [("error", Json.str "Internal server error"),
                       ("details", Json.str "Cannot read properties of null")]⟩, false)
    ∧ (500 : Nat) ≠ 400 :=
  ⟨rfl, by decide⟩

/-- C1 (amended): for every POST whose backend call succeeds with a
non-null JSON reply, the route returns 200 with an object whose
`response` field equals the backend reply's `response` (both absent
together) and whose `sources` field is the backend reply's `sources`
when that value is truthy and the empty list otherwise — in particular
the empty list when the reply carries no `sources` field. -/
theorem chat_success_response_and_sources (body data : Json)
    (hb : validChatBody body) (hd : data ≠ Json.null) :
    ∃ resp : RouteResponse,
      postChat (Except.ok body) (BackendOutcome.okResp (Except.ok data)) = (resp, true)
      ∧ resp.status = 200
      ∧ jsGet resp.body "response" = jsGet data "response"
      ∧ jsGet resp.body "sources" =
          some (if jsTruthyO (jsGet data "sources") = true
                then (jsGet data "sources").getD Json.null else Json.arr [])
      ∧ (jsGet data "sources" = none → jsGet resp.body "sources" = some (Json.arr [])) := by
  rw [postChat_valid body hb]
  simp only [jsAccess_of_ne_null data _ hd]
  refine ⟨_, rfl, rfl, ?_, ?_, ?_⟩
  · rcases jsGet data "response" with _ | v
    · rcases jsGet data "sources" with _ | w
      · rfl
      · simp [mkObjO, jsGet]
    · rcases jsGet data "sources" with _ | w
      · simp [mkObjO, jsGet]
      · simp [mkObjO, jsGet]
  · rcases jsGet data "response" with _ | v
    · rcases jsGet data "sources" with _ | w
      · simp [mkObjO, jsGet]
      · simp [mkObjO, jsGet]
    · rcases jsGet data "sources" with _ | w
      · simp [mkObjO, jsGet]
      · simp [mkObjO, jsGet]
  · intro hnone
    rw [hnone]
    rcases jsGet data "response" with _ | v
    · simp [mkObjO, jsGet, jsTruthyO]
    · simp [mkObjO, jsGet, jsTruthyO]

/-- C1 witness: backend reply `{response: "a"}` with no `sources` field
yields 200 with `sources = []`. -/
theorem chat_success_response_and_sources_witness :
    ∃ resp : RouteResponse,
      postChat (Except.ok (Json.obj [("message", Json.str "q")]))
          (BackendOutcome.okResp (Except.ok (Json.obj [("response", Json.str "a")])))
        = (resp, true)
      ∧ resp.status = 200
      ∧ jsGet resp.body "response" = jsGet (Json.obj [("response", Json.str "a")]) "response"
      ∧ jsGet resp.body "sources" =
          some (if jsTruthyO (jsGet (Json.obj [("response", Json.str "a")]) "sources") = true
                then (jsGet (Json.obj [("response", Json.str "a")]) "sources").getD Json.null
                else Json.arr [])
      ∧ (jsGet (Json.obj [("response", Json.str "a")]) "sources" = none →
          jsGet resp.body "sources" = some (Json.arr [])) :=
  chat_success_response_and_sources _ _ ⟨"q", by decide, rfl⟩ (fun h => Json.noConfusion h)

/-- C1 counterexample to the claim as stated: a successful backend
reply whose `sources` field is present but `null` (a falsy value) is
returned with `sources = []`, not with the reply's `sources` value. -/
theorem chat_success_sources_null_counterexample :
    (postChat (Except.ok (Json.obj [("message", Json.str "q")]))
        (BackendOutcome.okResp (Except.ok (Json.obj
          [("response", Json.str "a"), ("sources", Json.null)])))).1.body
      = Json.obj [("response", Json.str "a"), ("sources", Json.arr [])]
    ∧ jsGet (Json.obj [("response", Json.str "a"), ("sources", Json.null)]) "sources"
        = some Json.null
    ∧ Json.arr [] ≠ Json.null :=
  ⟨rfl, rfl, fun h => Json.noConfusion h⟩

/-- C9 (amended): error totality of the chat route.  A backend reply
with a non-OK status and a non-null JSON body yields the same status
with an `error` field equal to the body's `detail` when truthy and a
default error string otherwise; a non-OK reply whose body fails to
parse is treated as an empty object (`.catch(() => ({}))`) and likewise
yields the same status with the default error string; a fetch failure
raising a `TypeError` whose message mentions `fetch` yields 503; every
other thrown exception yields 500; and every non-200 reply of the
(total) handler carries an `error` field. -/
theorem chat_route_error_totality :
    (∀ (body : Json) (st : Nat) (j : Json), validChatBody body → j ≠ Json.null →
      postChat (Except.ok body) (BackendOutcome.httpErr st (Except.ok j)) =
        (⟨st, Json.obj
          [("error", if jsTruthyO (jsGet j "detail") = true
              then (jsGet j "detail").getD Json.null
              else Json.str ("Backend error: " ++ toString st)),
           ("status", Json.num (Int.ofNat st))]⟩, true))
    ∧ (∀ (body : Json) (st : Nat) (m : String), validChatBody body →
        postChat (Except.ok body) (BackendOutcome.httpErr st (Except.error m)) =
          (⟨st, Json.obj
            [("error", Json.str ("Backend error: " ++ toString st)),
             ("status", Json.num (Int.ofNat st))]⟩, true))
    ∧ (∀ (body : Json) (m : String), validChatBody body → strContains m "fetch" = true →
        (postChat (Except.ok body) (BackendOutcome.threw true m)).1.status = 503)
    ∧ (∀ (body : Json) (te : Bool) (m : String), validChatBody body →
        (te && strContains m "fetch") = false →
        (postChat (Except.ok body) (BackendOutcome.threw te m)).1.status = 500)
    ∧ (∀ (br : Except String Json) (o : BackendOutcome),
        (postChat br o).1.status ≠ 200 →
        ∃ v, jsGet (postChat br o).1.body "error" = some v) := by
  refine ⟨?_, ?_, ?_, ?_, ?_⟩
  · intro body st j hb hj
    rw [postChat_valid body hb]
    simp only [jsAccess_of_ne_null j _ hj]
  · intro body st m hb
    rw [postChat_valid body hb]
    rfl
  · intro body m hb hf
    rw [postChat_valid body hb]
    simp only [catchHandler_status]
    simp [hf]
  · intro body te m hb hf
    rw [postChat_valid body hb]
    simp only [catchHandler_status]
    simp [hf]
  · intro br o
    cases br with
    | error m =>
      intro _
      exact catchHandler_error_field _
    | ok body =>
      simp only [postChat]
      split
      · intro _
        exact catchHandler_error_field _
      · split
        · intro _
          exact ⟨_, rfl⟩
        · split
          · intro _
            exact catchHandler_error_field _
          · split
            · intro _
              exact catchHandler_error_field _
            · intro _
              exact ⟨_, rfl⟩
          · split
            · intro _
              exact catchHandler_error_field _
            · split
              · intro _
                exact catchHandler_error_field _
              · intro _
                exact catchHandler_error_field _
              · intro h
                exact absurd rfl h

/-- C9 witness: a 404 backend reply with `{detail: "not found"}` is
passed through as status 404 with `error = "not found"`, and a 502
reply whose body does not parse is passed through as status 502 with
the default error string. -/
theorem chat_route_error_totality_witness :
    (postChat (Except.ok (Json.obj [("message", Json.str "hello")]))
        (BackendOutcome.httpErr 404 (Except.ok (Json.obj [("detail", Json.str "not found")]))) =
      (⟨404, Json.obj [("error", Json.str "not found"),
                       ("status", Json.num (Int.ofNat 404))]⟩, true))
    ∧ (postChat (Except.ok (Json.obj [("message", Json.str "hello")]))
        (BackendOutcome.httpErr 502 (Except.error "Unexpected token")) =
      (⟨502, Json.obj [("error", Json.str ("Backend error: " ++ toString (502 : Nat))),
                       ("status", Json.num (Int.ofNat 502))]⟩, true)) := by
  constructor
  · have h := chat_route_error_totality.1 (Json.obj [("message", Json.str "hello")]) 404
      (Json.obj [("detail", Json.str "not found")])
      ⟨"hello", by decide, rfl⟩ (fun hh => Json.noConfusion hh)
    simpa [jsGet, jsTruthyO, jsTruthy] using h
  · exact chat_route_error_totality.2.1 (Json.obj [("message", Json.str "hello")]) 502
      "Unexpected token" ⟨"hello", by decide, rfl⟩

/-- C9 counterexample to the claim as stated: a backend reply with
non-OK status 404 whose JSON body is `null` is answered with 500, not
with the backend's status — `errorData.detail` throws inside the `try`
and the generic catch takes over. -/
theorem httpErr_null_body_loses_status :
    (postChat (Except.ok (Json.obj [("message", Json.str "q")]))
        (BackendOutcome.httpErr 404 (Except.ok Json.null))).1.status = 500
    ∧ (500 : Nat) ≠ 404 :=
  ⟨rfl, by decide⟩

theorem chunkCore_zero_join (cs : Nat) (h : 0 < cs) :
    ∀ (n : Nat) (t : List Char), t.length ≤ n → ∀ off : Nat,
      ((chunkCore cs 0 h off t).map Prod.snd).flatten = t := by
  intro n
  induction n with
  | zero =>
    intro t ht off
    have ht0 : t.length ≤ cs := le_trans ht (Nat.zero_le cs)
    rw [chunkCore, if_pos ht0]
    simp
  | succ n ih =>
    intro t ht off
    rw [chunkCore]
    split
    · simp
    · rename_i hgt
      have hlen : (t.drop (cs - 0)).length ≤ n := by
        rw [List.length_drop]
        omega
      rw [List.map_cons, List.flatten_cons, ih _ hlen]
      simp [List.take_append_drop]

/-- C6: chunking any document with `overlap = 0` and a valid
`chunk_size` loses nothing: the concatenation of the produced chunk
texts, in order, is exactly the document's `raw_text`; and a document
shorter than `chunk_size` still produces exactly one chunk (at offset
0, holding the whole text). -/
theorem chunk_overlap_zero_reconstructs (doc : SourceDocument) (cs : Nat)
    (hcs : 0 < cs) :
    ∃ cl : List (Nat × List Char),
      chunkDocument doc cs 0 = Except.ok cl
      ∧ (cl.map Prod.snd).flatten = doc.raw_text
      ∧ (doc.raw_text.length < cs → cl = [(0, doc.raw_text)]) := by
  rw [chunkDocument, dif_pos hcs]
  refine ⟨_, rfl, chunkCore_zero_join cs hcs doc.raw_text.length doc.raw_text le_rfl 0, ?_⟩
  intro hlt
  rw [chunkCore, if_pos (le_of_lt hlt)]

/-- C6 witness: the end-to-end scenario of §8 — a document shorter than
`chunk_size = 100` yields exactly one chunk whose text is the whole
document, and the concatenation is the document. -/
theorem chunk_overlap_zero_reconstructs_witness :
    ∃ cl : List (Nat × List Char),
      chunkDocument ⟨"models/customers.sql",
        String.toList "select id, name from raw_customers", 0⟩ 100 0 = Except.ok cl
      ∧ (cl.map Prod.snd).flatten =
          String.toList "select id, name from raw_customers"
      ∧ ((String.toList "select id, name from raw_customers").length < 100 →
          cl = [(0, String.toList "select id, name from raw_customers")]) :=
  chunk_overlap_zero_reconstructs _ 100 (by decide)

theorem simGE_total (da na db nb : ℚ) (h : simGE da na db nb = false) :
    simGE db nb da na = true := by
  unfold simGE at h ⊢
  by_cases h1 : 0 ≤ da <;> by_cases h2 : 0 ≤ db <;>
    simp [h1, h2] at h ⊢ <;> linarith

theorem chunkLE_total (q : List ℚ) (a b : Chunk) (h : chunkLE q a b = false) :
    chunkLE q b a = true := by
  simp only [chunkLE] at h ⊢
  cases hAB : simGE (dot a.embedding q) (normSq a.embedding)
      (dot b.embedding q) (normSq b.embedding) with
  | false =>
    rw [simGE_total _ _ _ _ hAB]
    simp
  | true =>
    rw [hAB] at h
    cases hBA : simGE (dot b.embedding q) (normSq b.embedding)
        (dot a.embedding q) (normSq a.embedding) with
    | false =>
      rw [hBA] at h
      simp at h
    | true =>
      rw [hBA] at h
      simp only [if_true] at h
      have hid : ¬ a.id ≤ b.id := by simpa using h
      simp [le_of_not_le hid]

theorem insertLe_perm {α : Type} (le : α → α → Bool) (a : α) (l : List α) :
    List.Perm (insertLe le a l) (a :: l) := by
  induction l with
  | nil => exact List.Perm.refl _
  | cons b l ih =>
    rw [insertLe]
    split
    · exact List.Perm.refl _
    · exact (ih.cons b).trans (List.Perm.swap a b l)

theorem sortLe_perm {α : Type} (le : α → α → Bool) (l : List α) :
    List.Perm (sortLe le l) l := by
  induction l with
  | nil => exact List.Perm.refl _
  | cons a l ih =>
    rw [sortLe]
    exact (insertLe_perm le a (sortLe le l)).trans (ih.cons a)

theorem chain'_insertLe {α : Type} (le : α → α → Bool)
    (htot : ∀ x y : α, le x y = false → le y x = true) (a : α) (l : List α)
    (h : List.Chain' (fun x y => le x y = true) l) :
    List.Chain' (fun x y => le x y = true) (insertLe le a l) := by
  induction l with
  | nil => simp [insertLe]
  | cons b l ih =>
    rw [List.chain'_cons'] at h
    obtain ⟨hhead, hl⟩ := h
    rw [insertLe]
    split
    · rename_i hab
      rw [List.chain'_cons]
      refine ⟨hab, ?_⟩
      rw [List.chain'_cons']
      exact ⟨hhead, hl⟩
    · rename_i hab
      have hba : le b a = true := htot a b (by simpa using hab)
      rw [List.chain'_cons']
      refine ⟨?_, ih hl⟩
      intro y hy
      rcases l with _ | ⟨c, l2⟩
      · simp [insertLe] at hy
        subst hy
        exact hba
      · rw [insertLe] at hy
        split at hy
        · simp at hy
          subst hy
          exact hba
        · simp at hy
          subst hy
          exact hhead c (by simp)

theorem chain'_sortLe {α : Type} (le : α → α → Bool)
    (htot : ∀ x y : α, le x y = false → le y x = true) (l : List α) :
    List.Chain' (fun x y => le x y = true) (sortLe le l) := by
  induction l with
  | nil => simp [sortLe]
  | cons a l ih =>
    rw [sortLe]
    exact chain'_insertLe le htot a (sortLe le l) ih

theorem chain'_imp_of_mem {α : Type} {R S : α → α → Prop} (l : List α)
    (himp : ∀ a ∈ l, ∀ b ∈ l, R a b → S a b)
    (h : List.Chain' R l) : List.Chain' S l := by
  induction l with
  | nil => simp
  | cons a l ih =>
    rw [List.chain'_cons'] at h ⊢
    obtain ⟨hhead, hl⟩ := h
    refine ⟨?_, ih (fun x hx y hy => himp x (List.mem_cons_of_mem a hx)
      y (List.mem_cons_of_mem a hy)) hl⟩
    intro y hy
    exact himp a (List.mem_cons_self a l) y
      (List.mem_cons_of_mem a (List.mem_of_mem_head? hy)) (hhead y hy)

theorem sq_le_sq_iff_nonneg (x y : ℝ) (hx : 0 ≤ x) (hy : 0 ≤ y) :
    x ^ 2 ≤ y ^ 2 ↔ x ≤ y := by
  constructor
  · intro h
    by_contra hlt
    push_neg at hlt
    have h1 : 0 < x := lt_of_le_of_lt hy hlt
    nlinarith
  · intro h
    exact pow_le_pow_left₀ hx h 2

theorem simGE_iff_cosine_le (da db na nb nq : ℚ) (hna : 0 < na) (hnb : 0 < nb)
    (hnq : 0 < nq) :
    simGE da na db nb = true ↔
      (db : ℝ) / (Real.sqrt ((nb : ℚ) : ℝ) * Real.sqrt ((nq : ℚ) : ℝ))
        ≤ (da : ℝ) / (Real.sqrt ((na : ℚ) : ℝ) * Real.sqrt ((nq : ℚ) : ℝ)) := by
  have hna' : (0:ℝ) < ((na : ℚ) : ℝ) := by exact_mod_cast hna
  have hnb' : (0:ℝ) < ((nb : ℚ) : ℝ) := by exact_mod_cast hnb
  have hnq' : (0:ℝ) < ((nq : ℚ) : ℝ) := by exact_mod_cast hnq
  have hsa : (0:ℝ) < Real.sqrt ((na : ℚ) : ℝ) := Real.sqrt_pos.mpr hna'
  have hsb : (0:ℝ) < Real.sqrt ((nb : ℚ) : ℝ) := Real.sqrt_pos.mpr hnb'
  have hsq : (0:ℝ) < Real.sqrt ((nq : ℚ) : ℝ) := Real.sqrt_pos.mpr hnq'
  have hsa2 : Real.sqrt ((na : ℚ) : ℝ) ^ 2 = ((na : ℚ) : ℝ) := Real.sq_sqrt hna'.le
  have hsb2 : Real.sqrt ((nb : ℚ) : ℝ) ^ 2 = ((nb : ℚ) : ℝ) := Real.sq_sqrt hnb'.le
  rw [div_le_div_iff₀ (mul_pos hsb hsq) (mul_pos hsa hsq)]
  have hre : ∀ x s : ℝ, x * (s * Real.sqrt ((nq : ℚ) : ℝ)) =
      (x * s) * Real.sqrt ((nq : ℚ) : ℝ) := by
    intro x s
    ring
  rw [hre, hre, mul_le_mul_right hsq]
  unfold simGE
  by_cases h1 : 0 ≤ da <;> by_cases h2 : 0 ≤ db
  · have hda0 : (0:ℝ) ≤ (da : ℝ) := by exact_mod_cast h1
    have hdb0 : (0:ℝ) ≤ (db : ℝ) := by exact_mod_cast h2
    rw [if_pos h1, if_pos h2, decide_eq_true_eq]
    constructor
    · intro h
      refine (sq_le_sq_iff_nonneg _ _ (mul_nonneg hdb0 hsa.le)
        (mul_nonneg hda0 hsb.le)).mp ?_
      rw [mul_pow, mul_pow, hsa2, hsb2]
      exact_mod_cast h
    · intro h
      have h2' := (sq_le_sq_iff_nonneg _ _ (mul_nonneg hdb0 hsa.le)
        (mul_nonneg hda0 hsb.le)).mpr h
      rw [mul_pow, mul_pow, hsa2, hsb2] at h2'
      exact_mod_cast h2'
  · have hda0 : (0:ℝ) ≤ (da : ℝ) := by exact_mod_cast h1
    have hdb0 : (db : ℝ) < 0 := by exact_mod_cast not_le.mp h2
    rw [if_pos h1, if_neg h2]
    refine ⟨fun _ => ?_, fun _ => rfl⟩
    have l1 : (db : ℝ) * Real.sqrt ((na : ℚ) : ℝ) < 0 := mul_neg_of_neg_of_pos hdb0 hsa
    have l2 : (0:ℝ) ≤ (da : ℝ) * Real.sqrt ((nb : ℚ) : ℝ) := mul_nonneg hda0 hsb.le
    linarith
  · have hda0 : (da : ℝ) < 0 := by exact_mod_cast not_le.mp h1
    have hdb0 : (0:ℝ) ≤ (db : ℝ) := by exact_mod_cast h2
    rw [if_neg h1, if_pos h2]
    constructor
    · intro h
      simp at h
    · intro hle
      exfalso
      have l1 : (da : ℝ) * Real.sqrt ((nb : ℚ) : ℝ) < 0 := mul_neg_of_neg_of_pos hda0 hsb
      have l2 : (0:ℝ) ≤ (db : ℝ) * Real.sqrt ((na : ℚ) : ℝ) := mul_nonneg hdb0 hsa.le
      linarith
  · have hda0 : (da : ℝ) < 0 := by exact_mod_cast not_le.mp h1
    have hdb0 : (db : ℝ) < 0 := by exact_mod_cast not_le.mp h2
    have hnda : (0:ℝ) ≤ -(da : ℝ) := by linarith
    have hndb : (0:ℝ) ≤ -(db : ℝ) := by linarith
    rw [if_neg h1, if_neg h2, decide_eq_true_eq]
    constructor
    · intro h
      have h2' : (-(da : ℝ) * Real.sqrt ((nb : ℚ) : ℝ)) ^ 2 ≤
          (-(db : ℝ) * Real.sqrt ((na : ℚ) : ℝ)) ^ 2 := by
        rw [mul_pow, mul_pow, neg_pow_two, neg_pow_two, hsa2, hsb2]
        exact_mod_cast h
      have h3 := (sq_le_sq_iff_nonneg _ _ (mul_nonneg hnda hsb.le)
        (mul_nonneg hndb hsa.le)).mp h2'
      rw [neg_mul, neg_mul] at h3
      linarith
    · intro h
      have h3 : -(da : ℝ) * Real.sqrt ((nb : ℚ) : ℝ) ≤
          -(db : ℝ) * Real.sqrt ((na : ℚ) : ℝ) := by
        rw [neg_mul, neg_mul]
        linarith
      have h2' := (sq_le_sq_iff_nonneg _ _ (mul_nonneg hnda hsb.le)
        (mul_nonneg hndb hsa.le)).mpr h3
      rw [mul_pow, mul_pow, neg_pow_two, neg_pow_two, hsa2, hsb2] at h2'
      exact_mod_cast h2'

theorem chunkLE_iff_descending (q : List ℚ) (a b : Chunk)
    (hna : 0 < normSq a.embedding) (hnb : 0 < normSq b.embedding)
    (hnq : 0 < normSq q) :
    chunkLE q a b = true ↔ DescendingByCosine q a b := by
  have gab := simGE_iff_cosine_le (dot a.embedding q) (dot b.embedding q)
    (normSq a.embedding) (normSq b.embedding) (normSq q) hna hnb hnq
  have gba := simGE_iff_cosine_le (dot b.embedding q) (dot a.embedding q)
    (normSq b.embedding) (normSq a.embedding) (normSq q) hnb hna hnq
  simp only [chunkLE]
  unfold DescendingByCosine
  cases hx : simGE (dot a.embedding q) (normSq a.embedding)
      (dot b.embedding q) (normSq b.embedding) with
  | false =>
    have hnBA : ¬ ((dot b.embedding q : ℝ) /
        (Real.sqrt ((normSq b.embedding : ℚ) : ℝ) * Real.sqrt ((normSq q : ℚ) : ℝ))
        ≤ (dot a.embedding q : ℝ) /
        (Real.sqrt ((normSq a.embedding : ℚ) : ℝ) * Real.sqrt ((normSq q : ℚ) : ℝ))) := by
      intro hle
      rw [gab.mpr hle] at hx
      cases hx
    rw [if_neg (by simp)]
    constructor
    · intro h
      cases h
    · rintro (hlt | ⟨heq, -⟩)
      · exact absurd hlt.le hnBA
      · exact absurd heq.symm.le hnBA
  | true =>
    have hBA := gab.mp hx
    cases hy : simGE (dot b.embedding q) (normSq b.embedding)
        (dot a.embedding q) (normSq a.embedding) with
    | false =>
      have hnAB : ¬ ((dot a.embedding q : ℝ) /
          (Real.sqrt ((normSq a.embedding : ℚ) : ℝ) * Real.sqrt ((normSq q : ℚ) : ℝ))
          ≤ (dot b.embedding q : ℝ) /
          (Real.sqrt ((normSq b.embedding : ℚ) : ℝ) * Real.sqrt ((normSq q : ℚ) : ℝ))) := by
        intro hle
        rw [gba.mpr hle] at hy
        cases hy
      rw [if_pos rfl, if_neg (by simp)]
      exact ⟨fun _ => Or.inl (lt_of_le_not_le hBA hnAB), fun _ => rfl⟩
    | true =>
      have hAB := gba.mp hy
      have heq := le_antisymm hAB hBA
      rw [if_pos rfl, if_pos rfl, decide_eq_true_eq]
      constructor
      · intro hid
        exact Or.inr ⟨heq, hid⟩
      · rintro (hlt | ⟨-, hid⟩)
        · rw [heq] at hlt
          exact absurd hlt (lt_irrefl _)
        · exact hid

/-- C7: for every index state, `search(q, k)` with `k ≤ 0` fails with
`InvalidArgumentError`; with `k ≥ 1` it returns exactly
`min(k, index.size())` results which are consecutive-wise ordered by
the ranking comparator (and are an initial segment of the full ranking,
a permutation of the whole index); under the index invariant that every
stored embedding and the query are non-zero vectors, consecutive
results are ordered by strictly descending real cosine similarity with
ties broken by ascending chunk id. -/
theorem search_count_order_and_invalid_k (q : List ℚ) (k : Int) (chunks : List Chunk) :
    (k ≤ 0 → search q k chunks = Except.error SearchFailure.invalidArgumentError)
    ∧ (1 ≤ k → ∃ res : List Chunk,
        search q k chunks = Except.ok res
        ∧ res.length = min k.toNat chunks.length
        ∧ List.Chain' (fun a b => chunkLE q a b = true) res
        ∧ (∃ rest, res ++ rest = sortLe (chunkLE q) chunks
            ∧ List.Perm (res ++ rest) chunks)
        ∧ (0 < normSq q → (∀ c ∈ chunks, 0 < normSq c.embedding) →
            List.Chain' (DescendingByCosine q) res)) := by
  constructor
  · intro hk
    rw [search, if_pos hk]
  · intro hk
    have hk' : ¬ (k ≤ 0) := by omega
    rw [search, if_neg hk']
    refine ⟨_, rfl, ?_, ?_, ?_, ?_⟩
    · rw [List.length_take, (sortLe_perm (chunkLE q) chunks).length_eq]
    · exact (chain'_sortLe _ (chunkLE_total q) chunks).take _
    · refine ⟨_, List.take_append_drop _ _, ?_⟩
      rw [List.take_append_drop]
      exact sortLe_perm _ _
    · intro hq hpos
      refine chain'_imp_of_mem _ ?_ ((chain'_sortLe _ (chunkLE_total q) chunks).take _)
      intro a ha b hb hR
      have ha' : a ∈ chunks := (sortLe_perm (chunkLE q) chunks).mem_iff.mp
        (List.take_subset _ _ ha)
      have hb' : b ∈ chunks := (sortLe_perm (chunkLE q) chunks).mem_iff.mp
        (List.take_subset _ _ hb)
      exact (chunkLE_iff_descending q a b (hpos a ha') (hpos b hb') hq).mp hR

/-- C7 witness: `k = -1` is rejected, and `k = 2` on a two-chunk index
returns the ranked pair. -/
theorem search_count_order_and_invalid_k_witness :
    (search [(1:ℚ)] (-1) [] = Except.error SearchFailure.invalidArgumentError)
    ∧ (∃ res : List Chunk,
        search [(1:ℚ)] 2 [⟨"c1", "a.sql", "t1", 0, [(1:ℚ)]⟩,
                          ⟨"c2", "b.sql", "t2", 0, [(2:ℚ)]⟩]
          = Except.ok res
        ∧ res.length = min (Int.toNat 2)
            ([⟨"c1", "a.sql", "t1", 0, [(1:ℚ)]⟩,
              ⟨"c2", "b.sql", "t2", 0, [(2:ℚ)]⟩] : List Chunk).length
        ∧ List.Chain' (fun a b => chunkLE [(1:ℚ)] a b = true) res
        ∧ (∃ rest, res ++ rest = sortLe (chunkLE [(1:ℚ)])
              [⟨"c1", "a.sql", "t1", 0, [(1:ℚ)]⟩, ⟨"c2", "b.sql", "t2", 0, [(2:ℚ)]⟩]
            ∧ List.Perm (res ++ rest)
              [⟨"c1", "a.sql", "t1", 0, [(1:ℚ)]⟩, ⟨"c2", "b.sql", "t2", 0, [(2:ℚ)]⟩])
        ∧ (0 < normSq [(1:ℚ)] →
            (∀ c ∈ ([⟨"c1", "a.sql", "t1", 0, [(1:ℚ)]⟩,
                     ⟨"c2", "b.sql", "t2", 0, [(2:ℚ)]⟩] : List Chunk),
              0 < normSq c.embedding) →
            List.Chain' (DescendingByCosine [(1:ℚ)]) res)) :=
  ⟨(search_count_order_and_invalid_k [(1:ℚ)] (-1) []).1 (by decide),
   (search_count_order_and_invalid_k [(1:ℚ)] 2
     [⟨"c1", "a.sql", "t1", 0, [(1:ℚ)]⟩, ⟨"c2", "b.sql", "t2", 0, [(2:ℚ)]⟩]).2 (by decide)⟩

end ChatDbt
